import Mathlib

/-!
Verification of the RAG pipeline in `backend_rag.py`.

Python strings are embedded as `List Char` (named `Str`); machine calls to
external services (embedding backend, vector index, completion backend, the
file system and the system clock) are embedded as explicit oracle parameters.
Every definition translates the corresponding Python function; the backend
query semantics of the vector store, which lives outside this repository, is
modelled from the specification and marked as such.
-/

set_option maxHeartbeats 1000000

/-- Embedding of a Python `str` as a list of characters. -/
abbrev Str := List Char

/-- The whitespace characters recognised by Python's `\s` / `str.strip`
(ASCII range). -/
def pyIsSpace (c : Char) : Bool :=
  c = ' ' || c = '\t' || c = '\n' || c = '\r' || c = '\x0b' || c = '\x0c'

/-- Python `str.strip()`: remove leading and trailing whitespace. -/
def pyStrip (s : Str) : Str :=
  ((s.dropWhile pyIsSpace).reverse.dropWhile pyIsSpace).reverse

/-- Python `re.sub(r'\r\n|\r', '\n', text)`: normalise line endings,
leftmost-first. -/
def normNL : Str → Str
  | [] => []
  | '\r' :: '\n' :: rest => '\n' :: normNL rest
  | '\r' :: rest => '\n' :: normNL rest
  | c :: rest => c :: normNL rest

/-- Python `text.split('\n\n')`: split on non-overlapping occurrences of a
blank-line separator, scanning left to right.  The accumulator holds the
current piece reversed. -/
def splitNN : Str → Str → List Str
  | [], acc => [acc.reverse]
  | '\n' :: '\n' :: rest, acc => acc.reverse :: splitNN rest []
  | c :: rest, acc => splitNN rest (c :: acc)

/-- Python `str.join`: `pyJoin sep [a, b, c] = a ++ sep ++ b ++ sep ++ c`. -/
def pyJoin (sep : Str) : List Str → Str
  | [] => []
  | [x] => x
  | x :: y :: t => x ++ sep ++ pyJoin sep (y :: t)

/-- An ASCII letter, i.e. what `[A-Z]` matches under `re.IGNORECASE`. -/
def isAsciiLetter (c : Char) : Bool :=
  ('a' ≤ c && c ≤ 'z') || ('A' ≤ c && c ≤ 'Z')

/-- An ASCII digit, i.e. what `\d` matches. -/
def isDigitC (c : Char) : Bool :=
  '0' ≤ c && c ≤ '9'

/-- What `[A-Z\s]` matches under `re.IGNORECASE`. -/
def isLetterOrSpace (c : Char) : Bool :=
  isAsciiLetter c || pyIsSpace c

/-- After one `#` has been consumed, decide whether `#{0,fuel}\s` matches a
prefix of the remaining input: the alternative `#{1,3}\s+` of the heading
regex succeeds iff some run of one to three `#` is followed by a whitespace
character. -/
def hashAux : Nat → Str → Bool
  | _, [] => false
  | 0, c :: _ => pyIsSpace c
  | fuel + 1, c :: rest => pyIsSpace c || (c = '#' && hashAux fuel rest)

/-- The regex alternative `#{1,3}\s+` as a prefix matcher. -/
def matchHash : Str → Bool
  | [] => false
  | c :: rest => c = '#' && hashAux 2 rest

/-- Consume a case-insensitive literal keyword from the front of a string,
returning the remainder on success (the keyword is given in lowercase). -/
def dropCIKeyword : Str → Str → Option Str
  | [], s => some s
  | _ :: _, [] => none
  | k :: ks, c :: cs => if c.toLower = k then dropCIKeyword ks cs else none

/-- The regex alternative `Chapter\s+\d+[:\-]?\s*` (or `Section ...`) as a
prefix matcher under `re.IGNORECASE`: since `[:\-]?` and `\s*` both match the
empty string, a prefix match exists iff the keyword is followed by at least
one whitespace character and then a digit. -/
def matchKeyword (kw : Str) (p : Str) : Bool :=
  match dropCIKeyword kw p with
  | none => false
  | some r =>
    match r with
    | [] => false
    | c :: _ =>
      pyIsSpace c &&
        (match r.dropWhile pyIsSpace with
         | [] => false
         | d :: _ => isDigitC d)

/-- The regex alternative `[A-Z][A-Z\s]{5,50}:?` as a prefix matcher under
`re.IGNORECASE`: a prefix match exists iff the first character is an ASCII
letter and the next five characters are letters or whitespace. -/
def matchCaps : Str → Bool
  | c :: d1 :: d2 :: d3 :: d4 :: d5 :: _ =>
    isAsciiLetter c && isLetterOrSpace d1 && isLetterOrSpace d2 &&
      isLetterOrSpace d3 && isLetterOrSpace d4 && isLetterOrSpace d5
  | _ => false

/-- `heading_pattern.match(para)` of `chunk_by_topic`: the compiled regex
`^(#{1,3}\s+|Chapter\s+\d+[:\-]?\s*|Section\s+\d+[:\-]?\s*|[A-Z][A-Z\s]{5,50}:?)`
with `re.IGNORECASE`, used as a prefix matcher. -/
def heading_pattern_match (p : Str) : Bool :=
  matchHash p || matchKeyword ("chapter".toList) p ||
    matchKeyword ("section".toList) p || matchCaps p

/-- A character stripped by `re.sub(r'^[#:\-\s]+', '', para)`. -/
def isTitleJunk (c : Char) : Bool :=
  c = '#' || c = ':' || c = '-' || pyIsSpace c

/-- `re.sub(r'^[#:\-\s]+', '', para).strip() or "Untitled"`. -/
def newTitle (p : Str) : Str :=
  let t := pyStrip (p.dropWhile isTitleJunk)
  if t.isEmpty then "Untitled".toList else t

/-- A chunk produced by `chunk_by_topic`: the dict
`{'title': ..., 'content': ...}`. -/
structure Chunk where
  title : Str
  content : Str
deriving DecidableEq, Repr

/-- The paragraph list of `chunk_by_topic`:
`[p.strip() for p in text.split('\n\n') if p.strip()]` after line-ending
normalisation. -/
def parasOf (text : Str) : List Str :=
  ((splitNN (normNL text) []).map pyStrip).filter (fun p => !p.isEmpty)

/-- The paragraph loop of `chunk_by_topic`, carrying `current_title` and
`current_content`; the final flush of a non-empty buffer is included. -/
def chunkLoop : List Str → Str → List Str → List Chunk
  | [], t, buf =>
    if buf.isEmpty then [] else [⟨t, pyJoin ("\n\n".toList) buf⟩]
  | p :: ps, t, buf =>
    if heading_pattern_match p then
      (if buf.isEmpty then [] else [⟨t, pyJoin ("\n\n".toList) buf⟩]) ++
        chunkLoop ps (newTitle p) [p]
    else
      chunkLoop ps t (buf ++ [p])

/-- `chunk_by_topic(text)` from `backend_rag.py`. -/
def chunk_by_topic (text : Str) : List Chunk :=
  chunkLoop (parasOf text) ("General".toList) []

/-- The heading characterization as the code actually behaves: either a run
of one to three `#` followed by a whitespace character, or a case-insensitive
`chapter`/`section` keyword followed by at least one whitespace character and
a digit, or a first character that is an ASCII letter of either case followed
by five characters that are letters or whitespace.  The last alternative is
case-insensitive (the regex is compiled with `IGNORECASE`) and constrains
only the first six characters (the regex matches a prefix). -/
def HeadingSpec (p : Str) : Prop :=
  (∃ k c rest, 1 ≤ k ∧ k ≤ 3 ∧ pyIsSpace c = true ∧
    p = List.replicate k '#' ++ c :: rest)
  ∨ (∃ kw pre w d rest,
      (kw = "chapter".toList ∨ kw = "section".toList) ∧
      pre.map Char.toLower = kw ∧ w ≠ [] ∧ (∀ x ∈ w, pyIsSpace x = true) ∧
      isDigitC d = true ∧ p = pre ++ (w ++ d :: rest))
  ∨ (∃ c d1 d2 d3 d4 d5 rest,
      isAsciiLetter c = true ∧
      isLetterOrSpace d1 = true ∧ isLetterOrSpace d2 = true ∧
      isLetterOrSpace d3 = true ∧ isLetterOrSpace d4 = true ∧
      isLetterOrSpace d5 = true ∧
      p = c :: d1 :: d2 :: d3 :: d4 :: d5 :: rest)

lemma hashAux_iff (f : Nat) (r : Str) :
    hashAux f r = true ↔
      ∃ j c rest, j ≤ f ∧ pyIsSpace c = true ∧
        r = List.replicate j '#' ++ c :: rest := by
  induction f generalizing r with
  | zero =>
    cases r with
    | nil =>
      simp only [hashAux]
      constructor
      · intro h; cases h
      · rintro ⟨j, c, rest, hj, _, heq⟩
        exact absurd heq.symm (by simp)
    | cons c rs =>
      simp only [hashAux]
      constructor
      · intro h; exact ⟨0, c, rs, Nat.le_refl 0, h, by simp⟩
      · rintro ⟨j, c', rest, hj, hc, heq⟩
        have hj0 : j = 0 := Nat.le_zero.mp hj
        subst hj0
        simp only [List.replicate, List.nil_append, List.cons.injEq] at heq
        rw [heq.1]; exact hc
  | succ f ih =>
    cases r with
    | nil =>
      simp only [hashAux]
      constructor
      · intro h; cases h
      · rintro ⟨j, c, rest, hj, _, heq⟩
        exact absurd heq.symm (by simp)
    | cons c rs =>
      simp only [hashAux, Bool.or_eq_true, Bool.and_eq_true, decide_eq_true_eq, ih]
      constructor
      · rintro (h | ⟨rfl, j, c', rest, hj, hc, rfl⟩)
        · exact ⟨0, c, rs, Nat.zero_le _, h, by simp⟩
        · exact ⟨j + 1, c', rest, Nat.succ_le_succ hj, hc, by
            simp [List.replicate_succ]⟩
      · rintro ⟨j, c', rest, hj, hc, heq⟩
        cases j with
        | zero =>
          simp only [List.replicate, List.nil_append, List.cons.injEq] at heq
          exact Or.inl (heq.1 ▸ hc)
        | succ j' =>
          simp only [List.replicate_succ, List.cons_append, List.cons.injEq] at heq
          exact Or.inr ⟨heq.1, j', c', rest, Nat.le_of_succ_le_succ hj, hc, heq.2⟩

lemma matchHash_iff (p : Str) :
    matchHash p = true ↔
      ∃ k c rest, 1 ≤ k ∧ k ≤ 3 ∧ pyIsSpace c = true ∧
        p = List.replicate k '#' ++ c :: rest := by
  cases p with
  | nil =>
    simp only [matchHash]
    constructor
    · intro h; cases h
    · rintro ⟨k, c, rest, hk1, _, _, heq⟩
      cases k with
      | zero => exact absurd hk1 (by omega)
      | succ k' => exact absurd heq.symm (by simp [List.replicate_succ])
  | cons c0 rs =>
    simp only [matchHash, Bool.and_eq_true, decide_eq_true_eq, hashAux_iff]
    constructor
    · rintro ⟨rfl, j, c, rest, hj, hc, rfl⟩
      exact ⟨j + 1, c, rest, Nat.succ_le_succ (Nat.zero_le _),
        Nat.succ_le_succ hj, hc, by simp [List.replicate_succ]⟩
    · rintro ⟨k, c, rest, hk1, hk3, hc, heq⟩
      cases k with
      | zero => exact absurd hk1 (by omega)
      | succ k' =>
        simp only [List.replicate_succ, List.cons_append, List.cons.injEq] at heq
        exact ⟨heq.1, k', c, rest, by omega, hc, heq.2⟩

lemma dropCIKeyword_eq_some_iff (kw : Str) (s r : Str) :
    dropCIKeyword kw s = some r ↔
      ∃ pre, pre.map Char.toLower = kw ∧ s = pre ++ r := by
  induction kw generalizing s with
  | nil =>
    simp only [dropCIKeyword, Option.some.injEq]
    constructor
    · rintro rfl; exact ⟨[], rfl, rfl⟩
    · rintro ⟨pre, hm, rfl⟩
      cases pre with
      | nil => simp
      | cons a pre' => cases hm
  | cons k ks ih =>
    cases s with
    | nil =>
      simp only [dropCIKeyword]
      constructor
      · intro h; cases h
      · rintro ⟨pre, hm, heq⟩
        cases pre with
        | nil => cases hm
        | cons a pre' => exact absurd heq.symm (by simp)
    | cons c cs =>
      simp only [dropCIKeyword]
      by_cases hck : c.toLower = k
      · rw [if_pos hck, ih]
        constructor
        · rintro ⟨pre, hm, rfl⟩
          exact ⟨c :: pre, by simp [hck, hm], by simp⟩
        · rintro ⟨pre, hm, heq⟩
          cases pre with
          | nil => cases hm
          | cons a pre' =>
            simp only [List.map_cons, List.cons.injEq] at hm
            simp only [List.cons_append, List.cons.injEq] at heq
            exact ⟨pre', hm.2, heq.2⟩
      · rw [if_neg hck]
        constructor
        · intro h; cases h
        · rintro ⟨pre, hm, heq⟩
          cases pre with
          | nil => cases hm
          | cons a pre' =>
            simp only [List.map_cons, List.cons.injEq] at hm
            simp only [List.cons_append, List.cons.injEq] at heq
            exact absurd (heq.1 ▸ hm.1) hck

lemma digit_not_space {c : Char} (h : isDigitC c = true) : pyIsSpace c = false := by
  by_contra hsp
  have hsp' : pyIsSpace c = true := by
    cases hpy : pyIsSpace c
    · exact absurd hpy hsp
    · rfl
  simp only [pyIsSpace, Bool.or_eq_true, decide_eq_true_eq] at hsp'
  rcases hsp' with ((((rfl | rfl) | rfl) | rfl) | rfl) | rfl <;> simp [isDigitC] at h

lemma dropWhile_append_of_all {q : Char → Bool} (w l : Str)
    (hw : ∀ x ∈ w, q x = true) :
    (w ++ l).dropWhile q = l.dropWhile q := by
  induction w with
  | nil => simp
  | cons a w' ih =>
    simp only [List.cons_append, List.dropWhile_cons, hw a (by simp), if_pos]
    exact ih (fun x hx => hw x (by simp [hx]))

lemma matchKeyword_iff (kw p : Str) :
    matchKeyword kw p = true ↔
      ∃ pre w d rest, pre.map Char.toLower = kw ∧ w ≠ [] ∧
        (∀ x ∈ w, pyIsSpace x = true) ∧ isDigitC d = true ∧
        p = pre ++ (w ++ d :: rest) := by
  unfold matchKeyword
  cases hdk : dropCIKeyword kw p with
  | none =>
    constructor
    · intro h; cases h
    · rintro ⟨pre, w, d, rest, hm, _, _, _, rfl⟩
      have : dropCIKeyword kw (pre ++ (w ++ d :: rest)) = some (w ++ d :: rest) :=
        (dropCIKeyword_eq_some_iff _ _ _).mpr ⟨pre, hm, rfl⟩
      rw [hdk] at this; cases this
  | some r =>
    obtain ⟨pre0, hm0, rfl⟩ := (dropCIKeyword_eq_some_iff _ _ _).mp hdk
    constructor
    · intro h
      cases r with
      | nil => cases h
      | cons c r' =>
        simp only [Bool.and_eq_true] at h
        obtain ⟨hc, hrest⟩ := h
        cases hdw : (c :: r').dropWhile pyIsSpace with
        | nil => rw [hdw] at hrest; cases hrest
        | cons d rr =>
          rw [hdw] at hrest
          refine ⟨pre0, (c :: r').takeWhile pyIsSpace, d, rr, hm0, ?_, ?_, hrest, ?_⟩
          · simp [List.takeWhile_cons, hc]
          · intro x hx; exact List.mem_takeWhile_imp hx
          · rw [← hdw, List.takeWhile_append_dropWhile]
    · rintro ⟨pre, w, d, rest, hm, hw, hsp, hd, heq⟩
      have hr : r = w ++ d :: rest := by
        have h2 : dropCIKeyword kw (pre ++ (w ++ d :: rest)) = some (w ++ d :: rest) :=
          (dropCIKeyword_eq_some_iff _ _ _).mpr ⟨pre, hm, rfl⟩
        rw [← heq, hdk] at h2
        exact Option.some.inj h2
      subst hr
      cases w with
      | nil => exact absurd rfl hw
      | cons w0 w' =>
        have hw0 : pyIsSpace w0 = true := hsp w0 (by simp)
        have hdw : ((w0 :: w') ++ d :: rest).dropWhile pyIsSpace = d :: rest := by
          rw [dropWhile_append_of_all _ _ hsp, List.dropWhile_cons,
            digit_not_space hd]
          simp
        simp only [List.cons_append, Bool.and_eq_true]
        constructor
        · exact hw0
        · rw [show ((w0 :: w') ++ d :: rest : Str) = w0 :: (w' ++ d :: rest) from rfl] at hdw
          rw [hdw]; exact hd

lemma matchCaps_iff (p : Str) :
    matchCaps p = true ↔
      ∃ c d1 d2 d3 d4 d5 rest,
        isAsciiLetter c = true ∧
        isLetterOrSpace d1 = true ∧ isLetterOrSpace d2 = true ∧
        isLetterOrSpace d3 = true ∧ isLetterOrSpace d4 = true ∧
        isLetterOrSpace d5 = true ∧
        p = c :: d1 :: d2 :: d3 :: d4 :: d5 :: rest := by
  match p with
  | c :: d1 :: d2 :: d3 :: d4 :: d5 :: rest =>
    simp only [matchCaps, Bool.and_eq_true]
    constructor
    · rintro ⟨⟨⟨⟨⟨h1, h2⟩, h3⟩, h4⟩, h5⟩, h6⟩
      exact ⟨c, d1, d2, d3, d4, d5, rest, h1, h2, h3, h4, h5, h6, rfl⟩
    · rintro ⟨c', e1, e2, e3, e4, e5, rest', h1, h2, h3, h4, h5, h6, heq⟩
      simp only [List.cons.injEq] at heq
      obtain ⟨rfl, rfl, rfl, rfl, rfl, rfl, rfl⟩ := heq
      exact ⟨⟨⟨⟨⟨h1, h2⟩, h3⟩, h4⟩, h5⟩, h6⟩
  | [] =>
    constructor
    · intro h; cases h
    · rintro ⟨c, d1, d2, d3, d4, d5, rest, _, _, _, _, _, _, heq⟩; simp at heq
  | [a] =>
    constructor
    · intro h; cases h
    · rintro ⟨c, d1, d2, d3, d4, d5, rest, _, _, _, _, _, _, heq⟩; simp at heq
  | [a, b] =>
    constructor
    · intro h; cases h
    · rintro ⟨c, d1, d2, d3, d4, d5, rest, _, _, _, _, _, _, heq⟩; simp at heq
  | [a, b, e] =>
    constructor
    · intro h; cases h
    · rintro ⟨c, d1, d2, d3, d4, d5, rest, _, _, _, _, _, _, heq⟩; simp at heq
  | [a, b, e, f] =>
    constructor
    · intro h; cases h
    · rintro ⟨c, d1, d2, d3, d4, d5, rest, _, _, _, _, _, _, heq⟩; simp at heq
  | [a, b, e, f, g] =>
    constructor
    · intro h; cases h
    · rintro ⟨c, d1, d2, d3, d4, d5, rest, _, _, _, _, _, _, heq⟩; simp at heq

/-- Claim C4 (amended): `chunk_by_topic` treats a paragraph as a heading
exactly when it matches one of: one to three `#` characters followed by a
whitespace character; a case-insensitive `Chapter`/`Section` keyword followed
by at least one whitespace character and a digit; or a first character that
is an ASCII letter of either case followed by five letters or whitespace
characters.  Because the regex is compiled with `IGNORECASE` and matches
only a prefix of the paragraph, the third alternative is neither
uppercase-only nor limited to lines of 6 to 50 characters. -/
theorem claim4_heading_characterization (p : Str) :
    heading_pattern_match p = true ↔ HeadingSpec p := by
  simp only [heading_pattern_match, Bool.or_eq_true, matchHash_iff,
    matchKeyword_iff, matchCaps_iff, HeadingSpec]
  constructor
  · rintro (((h | ⟨pre, w, d, rest, hs⟩) | ⟨pre, w, d, rest, hs⟩) | h)
    · exact Or.inl h
    · exact Or.inr (Or.inl ⟨_, pre, w, d, rest, Or.inl rfl, hs⟩)
    · exact Or.inr (Or.inl ⟨_, pre, w, d, rest, Or.inr rfl, hs⟩)
    · exact Or.inr (Or.inr h)
  · rintro (h | ⟨kw, pre, w, d, rest, (rfl | rfl), hs⟩ | h)
    · exact Or.inl (Or.inl (Or.inl h))
    · exact Or.inl (Or.inl (Or.inr ⟨pre, w, d, rest, hs⟩))
    · exact Or.inl (Or.inr ⟨pre, w, d, rest, hs⟩)
    · exact Or.inr h

/-- Claim C4 counterexample: the lowercase, 11-character paragraph
`"hello there"` is neither a markdown heading, nor a `Chapter`/`Section`
heading, nor an uppercase line, yet `chunk_by_topic` treats it as a heading
and starts a new chunk at it. -/
theorem claim4_counterexample :
    heading_pattern_match ("hello there".toList) = true ∧
      chunk_by_topic ("1+1=2\n\nhello there".toList) =
        [⟨"General".toList, "1+1=2".toList⟩,
         ⟨"hello there".toList, "hello there".toList⟩] := by
  constructor
  · decide
  · decide

lemma chunkLoop_length_of_buf_ne_nil (ps : List Str) (t : Str) (buf : List Str)
    (hbuf : buf ≠ []) :
    (chunkLoop ps t buf).length = ps.countP heading_pattern_match + 1 := by
  induction ps generalizing t buf with
  | nil =>
    have hbe : buf.isEmpty = false := by
      cases buf with
      | nil => exact absurd rfl hbuf
      | cons a l => rfl
    simp [chunkLoop, hbe]
  | cons p ps ih =>
    have hbe : buf.isEmpty = false := by
      cases buf with
      | nil => exact absurd rfl hbuf
      | cons a l => rfl
    by_cases hp : heading_pattern_match p = true
    · simp only [chunkLoop, hp, hbe, if_true, Bool.false_eq_true, if_false,
        List.length_append, List.length_cons, List.length_nil, List.countP_cons]
      rw [ih (newTitle p) [p] (by simp)]
      omega
    · have hp' : heading_pattern_match p = false := by
        cases h : heading_pattern_match p
        · rfl
        · exact absurd h hp
      simp only [chunkLoop, hp', Bool.false_eq_true, if_false, List.countP_cons]
      rw [ih t (buf ++ [p]) (by simp)]

lemma chunkLoop_length_of_buf_nil (p : Str) (ps : List Str) (t : Str) :
    (chunkLoop (p :: ps) t []).length =
      (p :: ps).countP heading_pattern_match +
        (if heading_pattern_match p then 0 else 1) := by
  by_cases hp : heading_pattern_match p = true
  · simp only [chunkLoop, hp, if_true, List.isEmpty_nil, List.nil_append,
      List.countP_cons, List.length_append, List.length_nil]
    rw [chunkLoop_length_of_buf_ne_nil ps (newTitle p) [p] (by simp)]
  · have hp' : heading_pattern_match p = false := by
      cases h : heading_pattern_match p
      · rfl
      · exact absurd h hp
    simp only [chunkLoop, hp', Bool.false_eq_true, if_false, List.countP_cons,
      List.nil_append]
    rw [chunkLoop_length_of_buf_ne_nil ps t [p] (by simp)]

lemma chunkLoop_no_heading (ps : List Str) (t : Str) (buf : List Str)
    (h : ∀ p ∈ ps, heading_pattern_match p = false)
    (hne : buf ≠ [] ∨ ps ≠ []) :
    chunkLoop ps t buf = [⟨t, pyJoin ("\n\n".toList) (buf ++ ps)⟩] := by
  induction ps generalizing buf with
  | nil =>
    have hbuf : buf ≠ [] := by
      rcases hne with h1 | h1
      · exact h1
      · exact absurd rfl h1
    have hbe : buf.isEmpty = false := by
      cases buf with
      | nil => exact absurd rfl hbuf
      | cons a l => rfl
    simp [chunkLoop, hbe]
  | cons p ps ih =>
    have hp : heading_pattern_match p = false := h p (by simp)
    simp only [chunkLoop, hp, Bool.false_eq_true, if_false]
    rw [ih (buf ++ [p]) (fun q hq => h q (List.mem_cons_of_mem _ hq))
      (Or.inl (by simp))]
    simp

/-- Claim C7: with `ps` the blank-line-separated, stripped, non-empty
paragraphs of the input text and `k` the number of paragraphs matching the
heading pattern: no paragraphs produce no chunks; paragraphs without any
heading match produce exactly one chunk titled `"General"` containing all
paragraphs joined by double newlines; and `k ≥ 1` heading matches produce
exactly `k` chunks, or `k + 1` exactly when the first paragraph is not a
heading (i.e. there is non-heading content before the first heading). -/
theorem claim7_chunk_count_structure (text : Str) :
    (parasOf text = [] → chunk_by_topic text = []) ∧
    (parasOf text ≠ [] →
      (parasOf text).countP heading_pattern_match = 0 →
      chunk_by_topic text =
        [⟨"General".toList, pyJoin ("\n\n".toList) (parasOf text)⟩]) ∧
    (1 ≤ (parasOf text).countP heading_pattern_match →
      (chunk_by_topic text).length =
        if heading_pattern_match (parasOf text).headI then
          (parasOf text).countP heading_pattern_match
        else (parasOf text).countP heading_pattern_match + 1) := by
  refine ⟨?_, ?_, ?_⟩
  · intro h
    simp [chunk_by_topic, h, chunkLoop]
  · intro hne hcount
    have hall : ∀ p ∈ parasOf text, heading_pattern_match p = false := by
      intro p hp
      have hnp := List.countP_eq_zero.mp hcount p hp
      cases h : heading_pattern_match p
      · rfl
      · exact absurd h hnp
    unfold chunk_by_topic
    rw [chunkLoop_no_heading (parasOf text) _ [] hall (Or.inr hne)]
    simp
  · intro hk
    cases hps : parasOf text with
    | nil => rw [hps] at hk; simp at hk
    | cons p ps =>
      unfold chunk_by_topic
      rw [hps, chunkLoop_length_of_buf_nil p ps]
      simp only [List.headI]
      by_cases hp : heading_pattern_match p = true
      · simp [hp]
      · have hp' : heading_pattern_match p = false := by
          cases h : heading_pattern_match p
          · rfl
          · exact absurd h hp
        simp [hp']

/-- Witness for claim C7: a two-paragraph text without headings yields one
`"General"` chunk, and a text whose first paragraph is a heading followed by
one non-heading paragraph yields exactly one chunk. -/
theorem claim7_witness :
    chunk_by_topic ("1+1=2\n\n2+2=4".toList) =
      [⟨"General".toList,
        pyJoin ("\n\n".toList) (parasOf ("1+1=2\n\n2+2=4".toList))⟩] ∧
    (chunk_by_topic ("### T\n\n1+1=2".toList)).length = 1 := by
  constructor
  · exact (claim7_chunk_count_structure ("1+1=2\n\n2+2=4".toList)).2.1
      (by decide) (by decide)
  · have h := (claim7_chunk_count_structure ("### T\n\n1+1=2".toList)).2.2
      (by decide)
    rw [h]
    decide

/-- `MAX_CONTEXT_CHARS = 7000` from the configuration block. -/
def MAX_CONTEXT_CHARS : Nat := 7000

/-- `MIN_SCORE = 0.25` from the configuration block, as a rational in
lowest terms. -/
def MIN_SCORE : ℚ := ⟨1, 4, by decide, by decide⟩

/-- The metadata dict carried by a query match; keys may be absent. -/
structure MatchMeta where
  text : Option Str := none
  expires_at : Option Int := none
deriving DecidableEq, Repr

/-- A vector-store query match as consumed by `retrieve` and
`build_context`: a dict whose `score` and `metadata` keys may be absent. -/
structure PyMatch where
  score : Option ℚ := none
  metadata : Option MatchMeta := none
deriving DecidableEq, Repr

/-- `m.get("score", 0)`. -/
def scoreKey (m : PyMatch) : ℚ := m.score.getD 0

/-- `(m.get("metadata") or {}).get("text", "")`. -/
def effText (m : PyMatch) : Str := ((m.metadata.getD {}).text).getD []

/-- The descending-score order used by
`sorted(matches, key=lambda m: m.get("score", 0), reverse=True)`. -/
def rDesc (a b : PyMatch) : Prop := scoreKey b ≤ scoreKey a

instance : DecidableRel rDesc :=
  fun a b => inferInstanceAs (Decidable (scoreKey b ≤ scoreKey a))

/-- Python's `sorted(..., reverse=True)` is a stable descending sort:
equal-score matches keep their input order.  Stable insertion sort with
`rDesc` computes exactly that list. -/
def sortDesc (l : List PyMatch) : List PyMatch :=
  l.insertionSort rDesc

/-- Decimal digit string of a natural number. -/
def natDigits (n : Nat) : Str := Nat.toDigits 10 n

/-- Python `f"{x:.3f}"` on an (idealised, rational-valued) score: scale by
1000, round half to even, print with exactly three decimals, the sign taken
from the value (a tiny negative value prints as `-0.000`).  Computed on the
numerator and denominator directly: with `a = num * 1000` and `b = den`,
the floor of the scaled value is `a.fdiv b` and the fractional part compares
to one half as `2 * (a - f * b)` compares to `b`. -/
def fmtFixed3 (q : ℚ) : Str :=
  let a : Int := q.num * 1000
  let b : Int := (q.den : Int)
  let f : Int := Int.fdiv a b
  let r2 : Int := 2 * (a - f * b)
  let n : Int :=
    if r2 < b then f
    else if b < r2 then f + 1
    else if f % 2 = 0 then f else f + 1
  let na := n.natAbs
  let sign : Str := if q.num < 0 then ['-'] else []
  let frac := natDigits (na % 1000)
  sign ++ natDigits (na / 1000) ++ ['.'] ++
    List.replicate (3 - frac.length) '0' ++ frac

/-- The formatted chunk `f"[{i} | score={m.get('score', 0):.3f}]\n{t}\n"`. -/
def fmtChunk (i : Nat) (m : PyMatch) : Str :=
  "[".toList ++ natDigits i ++ " | score=".toList ++
    fmtFixed3 (scoreKey m) ++ "]\n".toList ++ effText m ++ "\n".toList

/-- The `for i, m in enumerate(matches, 1)` loop of `build_context`: the
1-based index advances even over skipped matches (`continue`), and the loop
stops (`break`) at the first chunk whose length would push the accumulated
size over the budget. -/
def bcLoop : List PyMatch → Nat → Nat → List Str
  | [], _, _ => []
  | m :: ms, i, size =>
    if (effText m).isEmpty then bcLoop ms (i + 1) size
    else if MAX_CONTEXT_CHARS < size + (fmtChunk i m).length then []
    else fmtChunk i m :: bcLoop ms (i + 1) (size + (fmtChunk i m).length)

/-- The `parts` list assembled by `build_context`. -/
def bcParts (ms : List PyMatch) : List Str :=
  bcLoop (sortDesc ms) 1 0

/-- `build_context(matches)` from `backend_rag.py`:
`"\n".join(parts)`. -/
def build_context (ms : List PyMatch) : Str :=
  pyJoin ("\n".toList) (bcParts ms)

lemma pyJoin_length (sep : Str) (l : List Str) :
    (pyJoin sep l).length =
      (l.map List.length).sum + sep.length * (l.length - 1) := by
  induction l with
  | nil => simp [pyJoin]
  | cons x t ih =>
    cases t with
    | nil => simp [pyJoin]
    | cons y t' =>
      simp only [pyJoin] at ih ⊢
      rw [List.length_append, List.length_append, ih]
      simp only [List.map_cons, List.sum_cons, List.length_cons,
        Nat.succ_sub_one]
      rw [Nat.mul_succ]
      ring

lemma bcLoop_sum_le (s : List PyMatch) :
    ∀ i size, size ≤ MAX_CONTEXT_CHARS →
      size + ((bcLoop s i size).map List.length).sum ≤ MAX_CONTEXT_CHARS := by
  induction s with
  | nil => intro i size h; simpa [bcLoop]
  | cons m ms ih =>
    intro i size h
    by_cases ht : (effText m).isEmpty
    · simp only [bcLoop, ht, if_true]
      exact ih (i + 1) size h
    · by_cases hover : MAX_CONTEXT_CHARS < size + (fmtChunk i m).length
      · simp only [bcLoop, ht, Bool.false_eq_true, if_false, hover, if_true]
        simpa
      · simp only [bcLoop, ht, Bool.false_eq_true, if_false, hover]
        have hrec := ih (i + 1) (size + (fmtChunk i m).length) (by omega)
        simp only [List.map_cons, List.sum_cons]
        omega

/-- Claim C1 (amended): the pre-append budget check bounds the sum of the
lengths of the appended chunks by `MAX_CONTEXT_CHARS`, but the returned
string joins consecutive chunks with an extra newline, so its total length
is only bounded by `MAX_CONTEXT_CHARS` plus the number of separators. -/
theorem claim1_context_budget (ms : List PyMatch) :
    ((bcParts ms).map List.length).sum ≤ MAX_CONTEXT_CHARS ∧
    (build_context ms).length ≤
      MAX_CONTEXT_CHARS + ((bcParts ms).length - 1) := by
  have hsum := bcLoop_sum_le (sortDesc ms) 1 0 (by simp [MAX_CONTEXT_CHARS])
  constructor
  · simpa [bcParts] using hsum
  · rw [build_context, pyJoin_length]
    have h1 : ("\n".toList).length = 1 := by decide
    rw [h1, Nat.one_mul]
    have h2 : ((bcParts ms).map List.length).sum ≤ MAX_CONTEXT_CHARS := by
      simpa [bcParts] using hsum
    omega

set_option maxRecDepth 8000 in
/-- Claim C1 counterexample: 323 matches of score 0 whose text is the single
character `x` assemble to 323 chunks whose lengths sum to 6998, within the
budget, but the newline-joined result has 7320 characters — more than
`MAX_CONTEXT_CHARS`. -/
theorem claim1_counterexample :
    MAX_CONTEXT_CHARS <
      (build_context (List.replicate 323
        ({ score := some 0, metadata := some { text := some ['x'] } } : PyMatch))).length := by
  rw [build_context, pyJoin_length]
  decide

lemma orderedInsert_min (m : PyMatch) (s : List PyMatch)
    (h : ∀ b ∈ s, scoreKey m < scoreKey b) :
    s.orderedInsert rDesc m = s ++ [m] := by
  induction s with
  | nil => rfl
  | cons b l ih =>
    have hnb : ¬rDesc m b := not_le.mpr (h b (by simp))
    rw [List.orderedInsert, if_neg hnb,
      ih (fun x hx => h x (List.mem_cons_of_mem _ hx))]
    rfl

lemma orderedInsert_append_last (a m : PyMatch) (s : List PyMatch)
    (h : rDesc a m) :
    (s ++ [m]).orderedInsert rDesc a = s.orderedInsert rDesc a ++ [m] := by
  induction s with
  | nil =>
    simp only [List.nil_append, List.orderedInsert, if_pos h]
    rfl
  | cons b l ih =>
    by_cases hab : rDesc a b
    · show List.orderedInsert rDesc a (b :: (l ++ [m])) =
        List.orderedInsert rDesc a (b :: l) ++ [m]
      rw [List.orderedInsert, if_pos hab, List.orderedInsert, if_pos hab]
      rfl
    · show List.orderedInsert rDesc a (b :: (l ++ [m])) =
        List.orderedInsert rDesc a (b :: l) ++ [m]
      rw [List.orderedInsert, if_neg hab, List.orderedInsert, if_neg hab, ih]
      rfl

lemma sortDesc_min_last (xs ys : List PyMatch) (m : PyMatch)
    (h : ∀ x ∈ xs ++ ys, scoreKey m < scoreKey x) :
    sortDesc (xs ++ m :: ys) = sortDesc (xs ++ ys) ++ [m] := by
  induction xs with
  | nil =>
    show (List.insertionSort rDesc ys).orderedInsert rDesc m =
      List.insertionSort rDesc ys ++ [m]
    apply orderedInsert_min
    intro b hb
    exact h b (List.nil_append ys ▸ (List.perm_insertionSort rDesc ys).subset hb)
  | cons a xs ih =>
    have ham : rDesc a m :=
      le_of_lt (h a (List.mem_cons_self a (xs ++ ys)))
    show (List.insertionSort rDesc (xs ++ m :: ys)).orderedInsert rDesc a =
      (List.insertionSort rDesc (xs ++ ys)).orderedInsert rDesc a ++ [m]
    rw [show List.insertionSort rDesc (xs ++ m :: ys) = sortDesc (xs ++ m :: ys) from rfl,
      ih (fun x hx => h x (List.mem_cons_of_mem _ hx))]
    exact orderedInsert_append_last a m _ ham

lemma bcLoop_append_last (s : List PyMatch) (m : PyMatch) :
    ∀ i size, ∃ t, bcLoop (s ++ [m]) i size = bcLoop s i size ++ t := by
  induction s with
  | nil =>
    intro i size
    exact ⟨bcLoop [m] i size, by simp [bcLoop]⟩
  | cons a s ih =>
    intro i size
    by_cases ht : (effText a).isEmpty
    · obtain ⟨t, hteq⟩ := ih (i + 1) size
      refine ⟨t, ?_⟩
      simp only [List.cons_append, bcLoop, ht, if_true]
      exact hteq
    · by_cases hover : MAX_CONTEXT_CHARS < size + (fmtChunk i a).length
      · refine ⟨[], ?_⟩
        simp only [List.cons_append, bcLoop, ht, Bool.false_eq_true, if_false,
          hover, if_true, List.append_nil]
      · obtain ⟨t, hteq⟩ := ih (i + 1) (size + (fmtChunk i a).length)
        refine ⟨t, ?_⟩
        simp only [List.cons_append, bcLoop, ht, Bool.false_eq_true, if_false,
          hover]
        rw [show s.append [m] = s ++ [m] from rfl, hteq]

lemma pyJoin_length_le_append (sep : Str) (p t2 : List Str) :
    (pyJoin sep p).length ≤ (pyJoin sep (p ++ t2)).length := by
  rw [pyJoin_length, pyJoin_length]
  have h1 : (p.map List.length).sum ≤ ((p ++ t2).map List.length).sum := by
    simp only [List.map_append, List.sum_append]
    omega
  have h2 : sep.length * (p.length - 1) ≤ sep.length * ((p ++ t2).length - 1) := by
    apply Nat.mul_le_mul_left
    simp only [List.length_append]
    omega
  omega

/-- Claim C8: when `m` is the strictly lowest-scored match of the input,
removing it can only shrink or preserve the length of the string
`build_context` returns: the stable descending sort puts `m` last, so the
greedy loop processes the same chunks first and at most loses the final
one. -/
theorem claim8_remove_lowest_monotone (xs ys : List PyMatch) (m : PyMatch)
    (h : ∀ x ∈ xs ++ ys, scoreKey m < scoreKey x) :
    (build_context (xs ++ ys)).length ≤
      (build_context (xs ++ m :: ys)).length := by
  unfold build_context bcParts
  rw [sortDesc_min_last xs ys m h]
  obtain ⟨t, hteq⟩ := bcLoop_append_last (sortDesc (xs ++ ys)) m 1 0
  rw [hteq]
  exact pyJoin_length_le_append _ _ _

/-- Witness for claim C8 at a concrete input: dropping the lower-scored of
two matches does not lengthen the context. -/
theorem claim8_witness :
    (build_context
        [{ score := some 1, metadata := some { text := some ['a'] } }]).length ≤
      (build_context
        [{ score := some 1, metadata := some { text := some ['a'] } },
         { score := some 0, metadata := some { text := some ['b'] } }]).length :=
  claim8_remove_lowest_monotone
    [{ score := some 1, metadata := some { text := some ['a'] } }] []
    { score := some 0, metadata := some { text := some ['b'] } }
    (by decide)

/-- The metadata dict attached to an upserted record. -/
structure RecordMeta where
  title : Str
  text : Str
  source : Str
  created_at : Int
  expires_at : Option Int
deriving DecidableEq, Repr

/-- One persisted vector record: the `{"id", "values", "metadata"}` payload
passed to `index.upsert`. -/
structure IndexedRecord where
  id : Str
  vec : List ℚ
  metadata : RecordMeta
deriving DecidableEq, Repr

/-- Python `str(z)` for an integer. -/
def intStr (z : Int) : Str :=
  (if z < 0 then ['-'] else []) ++ natDigits z.natAbs

/-- The per-chunk loop of `upsert_chunks`: `i` is the `enumerate` index;
`tId i` and `tCr i` are the values of the two `int(time.time())` calls made
while processing chunk `i` (the doc-id timestamp and `created_at`); `embed`
is the embedding backend.  Records are listed in upsert order. -/
def upsertLoop (embed : Str → List ℚ) (tId tCr : Nat → Int) (source : Str)
    (expiry : Option Int) : List Chunk → Nat → List IndexedRecord
  | [], _ => []
  | c :: cs, i =>
    if (pyStrip (c.content.take 10000)).isEmpty then
      upsertLoop embed tId tCr source expiry cs (i + 1)
    else
      { id := source ++ ['_'] ++ intStr (tId i) ++ ['_'] ++ natDigits i,
        vec := embed (c.content.take 10000),
        metadata :=
          { title := c.title.take 200,
            text := c.content.take 10000,
            source := source,
            created_at := tCr i,
            expires_at :=
              match expiry with
              | some e => if e = 0 then none else some e
              | none => none } } ::
        upsertLoop embed tId tCr source expiry cs (i + 1)

/-- `upsert_chunks(chunks, source, ttl_hours)` from `backend_rag.py`, with
the batch-start timestamp `t0` (the value of
`int((datetime.utcnow() + timedelta(hours=ttl_hours)).timestamp())` minus
the TTL offset, i.e. the pre-loop clock reading) and the in-loop clock made
explicit oracles.  `expiry` is computed once before the loop; the records
passed to `index.upsert` are returned in order.  Python's `if expiry:` is a
truthiness test, so a zero expiry is not attached. -/
def upsert_chunks (embed : Str → List ℚ) (tId tCr : Nat → Int) (t0 : Int)
    (chunks : List Chunk) (source : Str) (ttl_hours : Int) :
    List IndexedRecord :=
  let expiry : Option Int :=
    if 0 < ttl_hours then some (t0 + ttl_hours * 3600) else none
  upsertLoop embed tId tCr source expiry chunks 0

lemma upsertLoop_expires (embed : Str → List ℚ) (tId tCr : Nat → Int)
    (source : Str) (expiry : Option Int) :
    ∀ (cs : List Chunk) (i : Nat) (r : IndexedRecord),
      r ∈ upsertLoop embed tId tCr source expiry cs i →
      r.metadata.expires_at =
        match expiry with
        | some e => if e = 0 then none else some e
        | none => none := by
  intro cs
  induction cs with
  | nil => intro i r hr; simp [upsertLoop] at hr
  | cons c cs ih =>
    intro i r hr
    by_cases hc : (pyStrip (c.content.take 10000)).isEmpty
    · simp only [upsertLoop, hc, if_true] at hr
      exact ih _ _ hr
    · simp only [upsertLoop, hc, Bool.false_eq_true, if_false,
        List.mem_cons] at hr
      rcases hr with rfl | hr
      · rfl
      · exact ih _ _ hr

/-- Claim C5 (amended): every record of a batch carries the same
`expires_at`, computed once before the loop as `t0 + ttl_hours*3600` from
the batch-start timestamp `t0` — not from the record's own `created_at`,
which is read later, per record.  It is attached exactly when
`ttl_hours > 0` and the computed value is nonzero (`if expiry:` is a
truthiness test); for `ttl_hours ≤ 0` no `expires_at` is attached. -/
theorem claim5_expiry_from_batch_start (embed : Str → List ℚ)
    (tId tCr : Nat → Int) (t0 : Int) (chunks : List Chunk) (source : Str)
    (ttl_hours : Int) (r : IndexedRecord)
    (hr : r ∈ upsert_chunks embed tId tCr t0 chunks source ttl_hours) :
    r.metadata.expires_at =
      if 0 < ttl_hours ∧ t0 + ttl_hours * 3600 ≠ 0 then
        some (t0 + ttl_hours * 3600)
      else none := by
  unfold upsert_chunks at hr
  by_cases ht : 0 < ttl_hours
  · rw [if_pos ht] at hr
    have h2 := upsertLoop_expires embed tId tCr source _ chunks 0 r hr
    simp only at h2
    rw [h2]
    by_cases he : t0 + ttl_hours * 3600 = 0
    · simp [he, ht]
    · simp [he, ht]
  · rw [if_neg ht] at hr
    have h2 := upsertLoop_expires embed tId tCr source _ chunks 0 r hr
    simp only at h2
    rw [h2]
    simp [ht]

/-- Claim C5 counterexample: with the pre-loop clock at 0 and the in-loop
clock at 5 (the embedding call takes time), a 1-hour TTL yields a record
with `expires_at = 3600` but `created_at = 5`, and `3600 ≠ 5 + 1*3600`. -/
theorem claim5_counterexample :
    (upsert_chunks (fun _ => []) (fun _ => 5) (fun _ => 5) 0
        [⟨"t".toList, "x".toList⟩] ("doc".toList) 1).map
      (fun r => (r.metadata.expires_at, r.metadata.created_at)) =
      [(some 3600, 5)] ∧ (3600 : Int) ≠ 5 + 1 * 3600 := by
  constructor
  · decide
  · decide

/-- Witness for claim C5 at a concrete input. -/
theorem claim5_witness :
    ({ id := "doc_5_0".toList, vec := [],
       metadata :=
        { title := "t".toList, text := "x".toList, source := "doc".toList,
          created_at := 5, expires_at := some 3600 } } :
        IndexedRecord).metadata.expires_at =
      if (0 : Int) < 1 ∧ (0 : Int) + 1 * 3600 ≠ 0 then
        some ((0 : Int) + 1 * 3600)
      else none :=
  claim5_expiry_from_batch_start (fun _ => []) (fun _ => 5) (fun _ => 5) 0
    [⟨"t".toList, "x".toList⟩] ("doc".toList) 1 _ (by decide)

/-- Claim C6 (amended): a chunk yields a record exactly when the first
10000 characters of its content contain a non-whitespace character — the
truncation to 10000 characters happens before the emptiness test, so a
chunk whose first 10000 characters are all whitespace is dropped even when
its full content is not whitespace-only.  Each kept chunk yields exactly
one record whose stored text is the content truncated to 10000 characters
(the full content when it is at most 10000 characters long). -/
theorem claim6_text_roundtrip (embed : Str → List ℚ) (tId tCr : Nat → Int)
    (t0 : Int) (chunks : List Chunk) (source : Str) (ttl_hours : Int) :
    (upsert_chunks embed tId tCr t0 chunks source ttl_hours).map
        (fun r => r.metadata.text) =
      (chunks.filter
          (fun c => !(pyStrip (c.content.take 10000)).isEmpty)).map
        (fun c => c.content.take 10000) := by
  unfold upsert_chunks
  suffices h : ∀ (cs : List Chunk) (i : Nat),
      (upsertLoop embed tId tCr source
          (if 0 < ttl_hours then some (t0 + ttl_hours * 3600) else none)
          cs i).map (fun r => r.metadata.text) =
        (cs.filter
            (fun c => !(pyStrip (c.content.take 10000)).isEmpty)).map
          (fun c => c.content.take 10000) by
    exact h chunks 0
  intro cs
  induction cs with
  | nil => intro i; simp [upsertLoop]
  | cons c cs ih =>
    intro i
    by_cases hc : (pyStrip (c.content.take 10000)).isEmpty
    · simp only [upsertLoop, hc, if_true, List.filter_cons, Bool.not_true,
        Bool.false_eq_true, if_false]
      exact ih (i + 1)
    · have hc' : (pyStrip (c.content.take 10000)).isEmpty = false := by
        cases h : (pyStrip (c.content.take 10000)).isEmpty
        · rfl
        · exact absurd h hc
      simp only [upsertLoop, hc', Bool.false_eq_true, if_false,
        List.filter_cons, Bool.not_false, if_true, List.map_cons]
      exact congrArg (List.cons _) (ih (i + 1))

lemma take_replicate_append (n : Nat) (c : Char) (l : Str) :
    (List.replicate n c ++ l).take n = List.replicate n c := by
  induction n with
  | zero => rfl
  | succ m ih =>
    rw [List.replicate_succ, List.cons_append, List.take_succ_cons, ih]

lemma dropWhile_replicate_space (n : Nat) :
    List.dropWhile pyIsSpace (List.replicate n ' ') = [] := by
  induction n with
  | zero => rfl
  | succ n ih =>
    rw [List.replicate_succ, List.dropWhile_cons]
    simp only [show pyIsSpace ' ' = true from rfl, if_true]
    exact ih

lemma upsertLoop_single_empty (embed : Str → List ℚ) (tId tCr : Nat → Int)
    (source : Str) (expiry : Option Int) (c : Chunk) (i : Nat)
    (hc : (pyStrip (c.content.take 10000)).isEmpty = true) :
    upsertLoop embed tId tCr source expiry [c] i = [] := by
  simp only [upsertLoop, hc, if_true]

/-- Claim C6 counterexample: a 10001-character chunk of 10000 blanks
followed by `x` is not empty or whitespace-only, yet `upsert_chunks`
produces no record for it, because the content is truncated to its first
10000 characters before the whitespace-only test. -/
theorem claim6_counterexample :
    upsert_chunks (fun _ => []) (fun _ => 0) (fun _ => 0) 0
        [⟨"t".toList, List.replicate 10000 ' ' ++ ['x']⟩] ("doc".toList) 1
      = [] ∧
      pyStrip (List.replicate 10000 ' ' ++ ['x']) ≠ [] := by
  have htake : ((List.replicate 10000 ' ' ++ ['x'] : Str)).take 10000 =
      List.replicate 10000 ' ' := take_replicate_append 10000 ' ' ['x']
  have hstrip : pyStrip (List.replicate 10000 ' ') = [] := by
    unfold pyStrip
    rw [dropWhile_replicate_space]
    rfl
  have hc : (pyStrip
      ((⟨"t".toList, List.replicate 10000 ' ' ++ ['x']⟩ : Chunk).content.take
        10000)).isEmpty = true := by
    show (pyStrip ((List.replicate 10000 ' ' ++ ['x'] : Str).take
      10000)).isEmpty = true
    rw [htake, hstrip]
    rfl
  constructor
  · show upsertLoop (fun _ => []) (fun _ => 0) (fun _ => 0) ("doc".toList)
      (if (0 : Int) < 1 then some (0 + 1 * 3600) else none)
      [⟨"t".toList, List.replicate 10000 ' ' ++ ['x']⟩] 0 = []
    exact upsertLoop_single_empty _ _ _ _ _ _ _ hc
  · have h2 : pyStrip (List.replicate 10000 ' ' ++ ['x']) = ['x'] := by
      unfold pyStrip
      rw [dropWhile_append_of_all (List.replicate 10000 ' ') ['x']
        (fun x hx => by rw [List.eq_of_mem_replicate hx]; rfl)]
      rfl
    rw [h2]
    simp

/-- `DEFAULT_TTL_HOURS = 24 * 7` from the configuration block. -/
def DEFAULT_TTL_HOURS : Int := 24 * 7

/-- The native TTL filter `{"expires_at": {"$gt": current_ts}}` passed to
the backend by the new-SDK path.  Modelled from the spec: the backend
applies the filter "expires_at > now" to each record's metadata, and a
record with no `expires_at` value has nothing greater than `now`, so it
does not satisfy the filter. -/
def nativeTTL (now : Int) (m : PyMatch) : Bool :=
  match (m.metadata.getD {}).expires_at with
  | some e => decide (now < e)
  | none => false

/-- The client-side TTL test of the old-SDK path:
`m.get("metadata", {}).get("expires_at", float('inf')) > current_ts` — a
missing `expires_at` defaults to infinity and always passes. -/
def postTTL (now : Int) (m : PyMatch) : Bool :=
  match (m.metadata.getD {}).expires_at with
  | some e => decide (now < e)
  | none => true

/-- The truthiness test on metadata text, the final filter of `retrieve`. -/
def hasText (m : PyMatch) : Bool := !(effText m).isEmpty

/-- Modelled from the spec: the vector-index backend (`index.query`, which
lives outside this repository) returns up to `top_k` highest-scoring
matches for the query, applying the optional metadata filter before
selection.  The index state and the query vector are embedded as the list
of candidate matches carrying the similarity scores of this query. -/
def backendQuery (records : List PyMatch) (top_k : Nat)
    (filt : Option Int) : List PyMatch :=
  (sortDesc
    (match filt with
     | some now => records.filter (nativeTTL now)
     | none => records)).take top_k

/-- The new-SDK (`PINECONE_NEW`) path of `retrieve`: the TTL filter is
passed to the backend when `DEFAULT_TTL_HOURS > 0`. -/
def retrieve_native (records : List PyMatch) (now : Int) (top_k : Nat) :
    List PyMatch :=
  (backendQuery records top_k
      (if 0 < DEFAULT_TTL_HOURS then some now else none)).filter hasText

/-- The old-SDK path of `retrieve`: the backend is queried unfiltered and
expired matches are removed client-side when `DEFAULT_TTL_HOURS > 0`. -/
def retrieve_post (records : List PyMatch) (now : Int) (top_k : Nat) :
    List PyMatch :=
  (if 0 < DEFAULT_TTL_HOURS then
      (backendQuery records top_k none).filter (postTTL now)
    else backendQuery records top_k none).filter hasText

/-- Claim C2 (amended): the two TTL-enforcement paths of `retrieve` agree
whenever every index record carries an `expires_at` strictly greater than
the query time.  They are not equivalent in general: a record without
`expires_at` is excluded by the native filter but kept by the post-filter,
and an expired record can occupy a top-k slot of the unfiltered query so
that the post-filter path returns fewer matches. -/
theorem claim2_paths_agree_when_unexpired (records : List PyMatch)
    (now : Int) (top_k : Nat)
    (h : ∀ m ∈ records,
      ∃ e, (m.metadata.getD {}).expires_at = some e ∧ now < e) :
    retrieve_native records now top_k = retrieve_post records now top_k := by
  unfold retrieve_native retrieve_post backendQuery
  rw [if_pos (show (0 : Int) < DEFAULT_TTL_HOURS by decide),
    if_pos (show (0 : Int) < DEFAULT_TTL_HOURS by decide)]
  have hfil : records.filter (nativeTTL now) = records := by
    rw [List.filter_eq_self]
    intro m hm
    obtain ⟨e, he, hlt⟩ := h m hm
    unfold nativeTTL
    rw [he]
    simpa using hlt
  have hpost : ((sortDesc records).take top_k).filter (postTTL now) =
      (sortDesc records).take top_k := by
    rw [List.filter_eq_self]
    intro m hm
    have hmem : m ∈ records :=
      (List.perm_insertionSort rDesc records).subset (List.mem_of_mem_take hm)
    obtain ⟨e, he, hlt⟩ := h m hmem
    unfold postTTL
    rw [he]
    simpa using hlt
  dsimp only
  rw [hfil, hpost]

/-- Claim C2 counterexample: (i) a record carrying no `expires_at` is
returned by the post-filter path but not by the native-filter path; (ii)
even with `expires_at` on every record, an expired record that outscores a
live one fills the only top-k slot of the unfiltered query, so the
post-filter path returns nothing while the native path returns the live
record. -/
theorem claim2_counterexample :
    (retrieve_native
        [{ score := some 1, metadata := some { text := some ['a'] } }] 10 1 ≠
      retrieve_post
        [{ score := some 1, metadata := some { text := some ['a'] } }] 10 1) ∧
    (retrieve_native
        [{ score := some 1,
           metadata := some { text := some ['a'], expires_at := some 3 } },
         { score := some 0,
           metadata := some { text := some ['b'], expires_at := some 100 } }]
        10 1 ≠
      retrieve_post
        [{ score := some 1,
           metadata := some { text := some ['a'], expires_at := some 3 } },
         { score := some 0,
           metadata := some { text := some ['b'], expires_at := some 100 } }]
        10 1) := by
  constructor
  · decide
  · decide

/-- Witness for claim C2 at a concrete input: one live record is returned
identically by both paths. -/
theorem claim2_witness :
    retrieve_native
        [{ score := some 1,
           metadata := some { text := some ['a'], expires_at := some 100 } }]
        10 3 =
      retrieve_post
        [{ score := some 1,
           metadata := some { text := some ['a'], expires_at := some 100 } }]
        10 3 :=
  claim2_paths_agree_when_unexpired
    [{ score := some 1,
       metadata := some { text := some ['a'], expires_at := some 100 } }]
    10 3 (by decide)

/-- The completion backend as an oracle: system prompt, user prompt,
temperature and max_tokens to (content, prompt_tokens,
completion_tokens). -/
abbrev CompletionOracle := Str → Str → ℚ → Nat → (Str × Nat × Nat)

/-- The system-prompt construction of `ask_llm`. -/
def sys_prompt_of (style lang : Str) : Str :=
  let lang_instr : Str :=
    if lang = "hi".toList then
      "Answer in Hindi using Devanagari script.".toList
    else "Answer in English.".toList
  let style_instr : Str :=
    if style = "detailed".toList then
      "Provide detailed explanation with examples.".toList
    else "Keep answer concise.".toList
  "You are Ycotes, an AI tutor. ".toList ++ lang_instr ++ [' '] ++
    style_instr ++ " Use context if provided.".toList

/-- The user-prompt construction of `ask_llm`: the context section is
appended only when the context string is truthy (non-empty). -/
def user_prompt_of (question context : Str) : Str :=
  if context.isEmpty then "Question:\n".toList ++ question
  else "Question:\n".toList ++ question ++ "\n\nContext:\n".toList ++ context

/-- `ask_llm(question, context, style, lang)` from `backend_rag.py` with
the completion backend as an oracle: concise style lowers the temperature
to 0.4 and caps output at 300 tokens, detailed style uses 0.7 and 800; the
answer text is stripped before being returned with the token counts. -/
def ask_llm (oracle : CompletionOracle) (question context style lang : Str) :
    Str × Nat × Nat :=
  let temp : ℚ :=
    if style = "concise".toList then ⟨2, 5, by decide, by decide⟩
    else ⟨7, 10, by decide, by decide⟩
  let maxtok : Nat := if style = "concise".toList then 300 else 800
  let r := oracle (sys_prompt_of style lang)
    (user_prompt_of question context) temp maxtok
  (pyStrip r.1, r.2.1, r.2.2)

/-- `answer(question, style, lang)` from `backend_rag.py` with the
retrieval result (`matches = retrieve(question)`) and the completion
backend as oracles; `strong = [m for m in matches if m.get("score", 0) >=
MIN_SCORE]` is written inline.  Only the answer text is returned. -/
def answer (oracle : CompletionOracle) (retrieved : List PyMatch)
    (question style lang : Str) : Str :=
  if (retrieved.filter (fun m => decide (MIN_SCORE ≤ scoreKey m))).isEmpty then
    (ask_llm oracle question [] style lang).1
  else
    (ask_llm oracle question
      (build_context (retrieved.filter (fun m => decide (MIN_SCORE ≤ scoreKey m))))
      style lang).1

/-- Claim C9: when every retrieved match scores below `MIN_SCORE`, the
reply is generated with no context — the completion sees the user prompt
`"Question:\n" + question` with no context section and `build_context` is
not involved; otherwise the context is built from exactly the matches
scoring at least `MIN_SCORE`.  Both paths return only the answer text (the
first component of `ask_llm`'s triple). -/
theorem claim9_relevance_gate (oracle : CompletionOracle)
    (retrieved : List PyMatch) (question style lang : Str) :
    ((∀ m ∈ retrieved, scoreKey m < MIN_SCORE) →
      answer oracle retrieved question style lang =
        (ask_llm oracle question [] style lang).1 ∧
      user_prompt_of question [] = "Question:\n".toList ++ question) ∧
    ((∃ m ∈ retrieved, MIN_SCORE ≤ scoreKey m) →
      answer oracle retrieved question style lang =
        (ask_llm oracle question
          (build_context
            (retrieved.filter (fun m => decide (MIN_SCORE ≤ scoreKey m))))
          style lang).1) := by
  constructor
  · intro h
    constructor
    · unfold answer
      have hstrong :
          retrieved.filter (fun m => decide (MIN_SCORE ≤ scoreKey m)) = [] := by
        rw [List.filter_eq_nil_iff]
        intro m hm
        simp only [decide_eq_true_eq]
        exact not_le.mpr (h m hm)
      rw [hstrong]
      rfl
    · rfl
  · rintro ⟨m, hm, hs⟩
    unfold answer
    have hne :
        retrieved.filter (fun m => decide (MIN_SCORE ≤ scoreKey m)) ≠ [] := by
      intro hcontra
      have hmem : m ∈ retrieved.filter (fun m => decide (MIN_SCORE ≤ scoreKey m)) :=
        List.mem_filter.mpr ⟨hm, by simpa using hs⟩
      rw [hcontra] at hmem
      cases hmem
    have hie :
        (retrieved.filter (fun m => decide (MIN_SCORE ≤ scoreKey m))).isEmpty
          = false := by
      cases hl : (retrieved.filter (fun m => decide (MIN_SCORE ≤ scoreKey m))).isEmpty
      · rfl
      · exact absurd (List.isEmpty_iff.mp hl) hne
    rw [hie]
    rfl

/-- Witness for claim C9 at a concrete input: one weak match (score 1/10,
below 1/4) routes `answer` to the no-context path. -/
theorem claim9_witness :
    (answer (fun _ _ _ _ => (" A ".toList, 0, 0))
        [{ score := some ⟨1, 10, by decide, by decide⟩,
           metadata := some { text := some ['t'] } }]
        ("Q".toList) ("concise".toList) ("en".toList) =
      (ask_llm (fun _ _ _ _ => (" A ".toList, 0, 0)) ("Q".toList) []
        ("concise".toList) ("en".toList)).1) ∧
      user_prompt_of ("Q".toList) [] = "Question:\n".toList ++ "Q".toList :=
  (claim9_relevance_gate (fun _ _ _ _ => (" A ".toList, 0, 0))
    [{ score := some ⟨1, 10, by decide, by decide⟩,
       metadata := some { text := some ['t'] } }]
    ("Q".toList) ("concise".toList) ("en".toList)).1 (by decide)

/-- The instruction prompt of `generate_sub_questions`. -/
def sub_q_prompt (main_question lang : Str) : Str :=
  let lang_prompt : Str :=
    if lang = "hi".toList then "Generate questions in Hindi.".toList
    else "Generate questions in English.".toList
  "\nGenerate exactly 3 foundational sub-questions based on this main question: \"".toList ++
    main_question ++
    "\"\n\nRules:\n- Generate exactly 3 questions\n- Make them simple and foundational\n- ".toList ++
    lang_prompt ++
    "\n- Respond ONLY with the 3 questions, one per line\n- No numbering, no bullets, no extra text\n\nExample output:\nWhat is a data structure?\nWhat is an algorithm?\nWhy are data structures important?\n".toList

/-- Python `raw.split('\n')`; the accumulator holds the current line
reversed. -/
def splitLines : Str → Str → List Str
  | [], acc => [acc.reverse]
  | '\n' :: rest, acc => acc.reverse :: splitLines rest []
  | c :: rest, acc => splitLines rest (c :: acc)

/-- `re.sub(r'^\d+[\.\)]\s*', '', line)`: remove one leading digit run
followed by `.` or `)` and any following whitespace. -/
def stripNumMarker (s : Str) : Str :=
  let ds := s.takeWhile isDigitC
  if ds.isEmpty then s
  else
    match s.drop ds.length with
    | c :: rest => if c = '.' ∨ c = ')' then rest.dropWhile pyIsSpace else s
    | [] => s

/-- `re.sub(r'^[-\*]\s*', '', line)`: remove one leading dash or asterisk
and any following whitespace. -/
def stripBullet : Str → Str
  | c :: rest =>
    if c = '-' ∨ c = '*' then rest.dropWhile pyIsSpace else c :: rest
  | [] => []

/-- The per-line validation of `generate_sub_questions`: strip, drop blank
lines, strip numbering and bullet markers, then drop lines longer than 150
characters or not ending in `?`. -/
def cleanLine (l : Str) : Option Str :=
  let l1 := pyStrip l
  if l1.isEmpty then none
  else
    let l2 := stripBullet (stripNumMarker l1)
    if 150 < l2.length ∨ l2.getLast? ≠ some '?' then none else some l2

/-- The fallback `f"What is {main_question}?"`. -/
def fallbackQuestion (main_question : Str) : Str :=
  "What is ".toList ++ main_question ++ ['?']

/-- `generate_sub_questions(main_question, lang)` from `backend_rag.py`:
the completion call is an oracle whose failure (`Except.error`) is caught;
both a failure and an empty validated list yield the single fallback
question, otherwise at most the first three validated lines are
returned. -/
def generate_sub_questions (oracle : Str → Except Unit Str)
    (main_question lang : Str) : List Str :=
  match oracle (sub_q_prompt main_question lang) with
  | Except.error _ => [fallbackQuestion main_question]
  | Except.ok content =>
    let cleaned := (splitLines (pyStrip content) []).filterMap cleanLine
    if cleaned.isEmpty then [fallbackQuestion main_question]
    else cleaned.take 3

lemma cleanLine_shape {l s : Str} (h : cleanLine l = some s) :
    s.length ≤ 150 ∧ s.getLast? = some '?' := by
  unfold cleanLine at h
  by_cases h1 : (pyStrip l).isEmpty
  · rw [if_pos h1] at h; cases h
  · rw [if_neg h1] at h
    dsimp only at h
    by_cases h2 : 150 < (stripBullet (stripNumMarker (pyStrip l))).length ∨
        (stripBullet (stripNumMarker (pyStrip l))).getLast? ≠ some '?'
    · rw [if_pos h2] at h; cases h
    · rw [if_neg h2] at h
      obtain rfl := Option.some.inj h
      push_neg at h2
      exact h2

/-- Claim C10: for every question, language and completion outcome —
including a thrown backend error, which is caught — the result is either a
non-empty list of at most three strings, each at most 150 characters and
ending in `?`, or exactly the single fallback `"What is <question>?"`; no
failure propagates. -/
theorem claim10_subquestions_shape (oracle : Str → Except Unit Str)
    (main_question lang : Str) :
    (generate_sub_questions oracle main_question lang ≠ [] ∧
      (generate_sub_questions oracle main_question lang).length ≤ 3 ∧
      ∀ s ∈ generate_sub_questions oracle main_question lang,
        s.length ≤ 150 ∧ s.getLast? = some '?') ∨
    generate_sub_questions oracle main_question lang =
      [fallbackQuestion main_question] := by
  unfold generate_sub_questions
  cases oracle (sub_q_prompt main_question lang) with
  | error e => right; rfl
  | ok content =>
    dsimp only
    by_cases hc : ((splitLines (pyStrip content) []).filterMap cleanLine).isEmpty
    · rw [if_pos hc]
      right
      rfl
    · rw [if_neg hc]
      left
      have hne : (splitLines (pyStrip content) []).filterMap cleanLine ≠ [] := by
        intro hcontra
        rw [hcontra] at hc
        exact hc rfl
      refine ⟨?_, ?_, ?_⟩
      · cases hl : (splitLines (pyStrip content) []).filterMap cleanLine with
        | nil => exact absurd hl hne
        | cons a t => simp
      · exact List.length_take_le 3 _
      · intro s hs
        have hs2 : s ∈ (splitLines (pyStrip content) []).filterMap cleanLine :=
          List.mem_of_mem_take hs
        obtain ⟨l, _, hcl⟩ := List.mem_filterMap.mp hs2
        exact cleanLine_shape hcl

/-- Witness for claim C10 at a concrete input: a failing completion
backend is caught and produces the fallback. -/
theorem claim10_witness :
    (generate_sub_questions (fun _ => Except.error ()) ("X".toList)
        ("en".toList) ≠ [] ∧
      (generate_sub_questions (fun _ => Except.error ()) ("X".toList)
        ("en".toList)).length ≤ 3 ∧
      ∀ s ∈ generate_sub_questions (fun _ => Except.error ()) ("X".toList)
        ("en".toList), s.length ≤ 150 ∧ s.getLast? = some '?') ∨
    generate_sub_questions (fun _ => Except.error ()) ("X".toList)
        ("en".toList) = [fallbackQuestion ("X".toList)] :=
  claim10_subquestions_shape (fun _ => Except.error ()) ("X".toList)
    ("en".toList)

/-- The external capabilities used by `extract_text_from_file`: whether
the optional `PyPDF2`/`docx2txt` imports succeeded, and the outcome of each
handler's file I/O (`Except.error` models a raised exception). -/
structure FileOracles where
  pypdf2 : Bool
  docx2txt : Bool
  pdfPages : Str → Except Str (List (Option Str))
  txtRead : Str → Except Str Str
  docxRead : Str → Except Str Str
  csvRows : Str → Except Str (List (List Str))

/-- `os.path.splitext(filepath)[1]`: the extension of the final path
component, starting at its last dot; leading dots of a hidden file do not
begin an extension. -/
def splitextExt (p : Str) : Str :=
  let base := (p.reverse.takeWhile (fun c => c ≠ '/')).reverse
  let rest := base.dropWhile (fun c => c = '.')
  if rest.any (fun c => c = '.') then
    '.' :: (rest.reverse.takeWhile (fun c => c ≠ '.')).reverse
  else []

/-- The body of the `try:` block of `extract_text_from_file`: dispatch on
the lowercased extension; a handler whose optional dependency is missing
falls through, and the final `else` raises
`ValueError(f"Unsupported file: {ext}")`. -/
def extractBody (fs : FileOracles) (filepath : Str) : Except Str Str :=
  let ext := (splitextExt filepath).map Char.toLower
  if ext = ".pdf".toList ∧ fs.pypdf2 then
    (fs.pdfPages filepath).map
      (fun pages => pyJoin ("\n\n".toList) (pages.map (fun t => t.getD [])))
  else if ext = ".txt".toList then fs.txtRead filepath
  else if ext = ".docx".toList ∧ fs.docx2txt then fs.docxRead filepath
  else if ext = ".csv".toList then
    (fs.csvRows filepath).map
      (fun rows =>
        pyJoin ['\n'] (rows.map (fun row => pyJoin (", ".toList) row)))
  else Except.error ("Unsupported file: ".toList ++ ext)

/-- `extract_text_from_file(filepath)` from `backend_rag.py`: the whole
dispatch — the `raise` included — sits inside `try/except Exception`,
which prints a warning and returns the empty string. -/
def extract_text_from_file (fs : FileOracles) (filepath : Str) : Str :=
  match extractBody fs filepath with
  | Except.ok s => s
  | Except.error _ => []

/-- A file-oracle assignment with every optional dependency available and
trivially succeeding handlers. -/
def fsAll : FileOracles :=
  { pypdf2 := true, docx2txt := true,
    pdfPages := fun _ => Except.ok [],
    txtRead := fun _ => Except.ok [],
    docxRead := fun _ => Except.ok [],
    csvRows := fun _ => Except.ok [] }

/-- Claim C3 (amended): for every extension without a registered handler,
the dispatch raises `ValueError("Unsupported file: <ext>")` inside the
`try:` block, but the error does not reach the caller: the blanket
`except Exception` swallows it and the function returns the empty string,
exactly like an internal extraction failure. -/
theorem claim3_unsupported_swallowed (fs : FileOracles) (filepath : Str)
    (hext : (splitextExt filepath).map Char.toLower ∉
      [".pdf".toList, ".txt".toList, ".docx".toList, ".csv".toList]) :
    extractBody fs filepath =
      Except.error ("Unsupported file: ".toList ++
        (splitextExt filepath).map Char.toLower) ∧
    extract_text_from_file fs filepath = [] := by
  simp only [List.mem_cons, List.not_mem_nil, or_false, not_or] at hext
  obtain ⟨h1, h2, h3, h4⟩ := hext
  have hbody : extractBody fs filepath =
      Except.error ("Unsupported file: ".toList ++
        (splitextExt filepath).map Char.toLower) := by
    unfold extractBody
    rw [if_neg (fun hc => h1 hc.1), if_neg h2, if_neg (fun hc => h3 hc.1),
      if_neg h4]
  refine ⟨hbody, ?_⟩
  unfold extract_text_from_file
  rw [hbody]

/-- Claim C3 counterexample: extraction of `file.xyz` — an extension with
no registered handler — returns the empty string to the caller instead of
propagating an UnsupportedFormat error; internally the dispatch did raise
`ValueError("Unsupported file: .xyz")` and the blanket handler caught
it. -/
theorem claim3_counterexample :
    extractBody fsAll ("file.xyz".toList) =
      Except.error ("Unsupported file: .xyz".toList) ∧
    extract_text_from_file fsAll ("file.xyz".toList) = [] := by
  constructor
  · rfl
  · rfl

/-- Witness for claim C3 at a concrete input. -/
theorem claim3_witness :
    extractBody fsAll ("notes.md".toList) =
      Except.error ("Unsupported file: ".toList ++
        (splitextExt ("notes.md".toList)).map Char.toLower) ∧
    extract_text_from_file fsAll ("notes.md".toList) = [] :=
  claim3_unsupported_swallowed fsAll ("notes.md".toList) (by decide)
